import Mathlib

/-!
# Verification of the exonviz coordinate / frame / geometry core

Shallow embedding of the exonviz repository:

* `src/exonviz/exon.py` — the frame-aware polygon generator `draw_exon`;
* `src/exonviz/cli.py` — the transcript-identifier syntax check `check_input`;
* the `exonviz.mutalyzer` helpers (`convert_coding_positions`,
  `convert_exon_positions`, `is_reverse`, `make_coding`, `exon_variants`,
  `inside`) are exercised by `tests/test_mutalyzer.py` but their module is not
  part of this source tree; they are modelled from the specification and
  checked against every concrete expectation of the test file.

Python `int` is modelled as `ℤ` (Python `%` on a positive modulus agrees with
`Int.emod`), Python `float` geometry as `ℚ` (every value produced by the code
is an exact decimal), and fallible code as `Except`.
-/

/-- One SVG polygon as built by `draw_exon`: the flat coordinate list
`[x1, y1, x2, y2, ...]` plus the fixed stroke attributes. -/
structure Polygon where
  points : List ℚ
  stroke : String
  stroke_width : ℚ
deriving DecidableEq, Repr

/-- The SVG document returned by `draw_exon` (fixed 1000 × 700 canvas). -/
structure SVG where
  width : ℚ
  height : ℚ
  elements : List Polygon
deriving DecidableEq, Repr

/-- The loop body of `draw_exon` (src/exonviz/exon.py, lines 17-62).
Arguments after the exon list are the running `x_position` and the running
`start_frame`; `y_position = 10`, `height = 10` and `exon_gap = 5` are the
constants fixed before the loop.  The `stderr` prints of the source are pure
side channels and are not modelled. -/
def drawExonLoop (scale : ℤ) : List ℤ → ℚ → ℤ → List Polygon
  | [], _, _ => []
  | exon :: rest, x_position, start_frame =>
      let y_position : ℚ := 10
      let height : ℚ := 10
      let exon_gap : ℚ := 5
      let end_frame : ℤ := (start_frame + exon) % 3
      if start_frame = 0 ∧ end_frame = 0 then
        let points : List ℚ :=
          [x_position, y_position,
           x_position + exon, y_position,
           x_position + exon, y_position + height,
           x_position, y_position + height]
        ⟨points.map (fun p => p * scale), "green", 1⟩ ::
          drawExonLoop scale rest (x_position + exon + exon_gap) end_frame
      else if start_frame = 0 ∧ end_frame = 1 then
        let points : List ℚ :=
          [x_position, y_position,
           x_position + exon, y_position,
           x_position + exon - 0.5 * height, y_position + 0.5 * height,
           x_position + exon, y_position + height,
           x_position, y_position + height]
        ⟨points.map (fun p => p * scale), "green", 1⟩ ::
          drawExonLoop scale rest (x_position + exon + exon_gap) end_frame
      else if start_frame = 1 ∧ end_frame = 0 then
        let points : List ℚ :=
          [x_position, y_position,
           x_position + exon, y_position,
           x_position + exon, y_position + height,
           x_position, y_position + height,
           x_position - 0.5 * height, y_position + 0.5 * height]
        ⟨points.map (fun p => p * scale), "green", 1⟩ ::
          drawExonLoop scale rest (x_position + exon + exon_gap) end_frame
      else
        drawExonLoop scale rest x_position start_frame

/-- `draw_exon(exons, scale)` from src/exonviz/exon.py: runs the loop from
`x_position = 10`, `start_frame = 0` and wraps the polygons in the fixed
canvas.  The Python default for `scale` is `5`. -/
def draw_exon (exons : List ℤ) (scale : ℤ) : SVG :=
  ⟨1000, 700, drawExonLoop scale exons 10 0⟩

example :
    drawExonLoop 5 [3] 10 0 =
      [⟨[50, 50, 65, 50, 65, 100, 50, 100], "green", 1⟩] := by
  norm_num [drawExonLoop]

example : drawExonLoop 5 [2] 10 0 = [] := by
  norm_num [drawExonLoop]

/-- Sanity: a skipped exon leaves both the x offset and the frame untouched,
so `[2, 3]` draws the single rectangle that `[3]` would draw. -/
example : drawExonLoop 5 [2, 3] 10 0 = drawExonLoop 5 [3] 10 0 := by
  norm_num [drawExonLoop]

/-- The shape the spec prescribes for phase pair `(0,0)`: a plain rectangle,
both edges flat, with top-left corner `(x, y)`, width `w` and height `h`. -/
def rectangleShape (x y w h : ℚ) : List ℚ :=
  [x, y, x + w, y, x + w, y + h, x, y + h]

/-- The shape the spec prescribes for phase pair `(0,1)`: flat left edge, and
a right edge with an inward notch (depth `h / 2`) at mid-height. -/
def notchRightShape (x y w h : ℚ) : List ℚ :=
  [x, y, x + w, y, x + w - h / 2, y + h / 2, x + w, y + h, x, y + h]

/-- The shape the spec prescribes for phase pair `(1,0)`: a left edge with an
outward notch (depth `h / 2`) at mid-height, and a flat right edge. -/
def notchLeftShape (x y w h : ℚ) : List ℚ :=
  [x, y, x + w, y, x + w, y + h, x, y + h, x - h / 2, y + h / 2]

/-- The phase pairs for which `draw_exon` has a polygon template. -/
def handled_pair (sf ef : ℤ) : Bool :=
  (sf == 0 && ef == 0) || (sf == 0 && ef == 1) || (sf == 1 && ef == 0)

/-- Claim C1: for every input sequence of exons, `draw_exon` emits a polygon
only for the phase pairs `(start_frame, end_frame)` in
`{(0,0), (0,1), (1,0)}` — a plain rectangle for `(0,0)`, a flat left edge
with an inward notch at mid-height on the right edge for `(0,1)`, an outward
notch at mid-height on the left edge with a flat right edge for `(1,0)` — and
for every other phase combination the exon is skipped and omitted from the
output entirely (neither the x offset nor the frame advances for it). -/
theorem drawExonLoop_phase_dispatch (scale e : ℤ) (rest : List ℤ) (x : ℚ)
    (f : ℤ) :
    drawExonLoop scale (e :: rest) x f =
      if f = 0 ∧ (f + e) % 3 = 0 then
        ⟨(rectangleShape x 10 e 10).map (fun p => p * scale), "green", 1⟩ ::
          drawExonLoop scale rest (x + e + 5) ((f + e) % 3)
      else if f = 0 ∧ (f + e) % 3 = 1 then
        ⟨(notchRightShape x 10 e 10).map (fun p => p * scale), "green", 1⟩ ::
          drawExonLoop scale rest (x + e + 5) ((f + e) % 3)
      else if f = 1 ∧ (f + e) % 3 = 0 then
        ⟨(notchLeftShape x 10 e 10).map (fun p => p * scale), "green", 1⟩ ::
          drawExonLoop scale rest (x + e + 5) ((f + e) % 3)
      else
        drawExonLoop scale rest x f := by
  rw [drawExonLoop]
  split_ifs with h1 h2 h3 <;>
    simp only [rectangleShape, notchRightShape, notchLeftShape] <;>
    norm_num

/-- Claim C10: when `draw_exon` encounters an exon whose
`(start_frame, end_frame)` combination is unhandled, it skips that exon
before updating any loop state: the running `x_position` is not advanced and
`start_frame` is not updated, so the rest of the list is processed exactly as
if the skipped exon were absent. -/
theorem drawExonLoop_skip (scale e : ℤ) (rest : List ℤ) (x : ℚ) (f : ℤ)
    (h : handled_pair f ((f + e) % 3) = false) :
    drawExonLoop scale (e :: rest) x f = drawExonLoop scale rest x f := by
  simp only [handled_pair, Bool.or_eq_false_iff, Bool.and_eq_false_iff,
    beq_eq_false_iff_ne, ne_eq] at h
  rw [drawExonLoop]
  rw [if_neg, if_neg, if_neg]
  · rintro ⟨rfl, hb⟩
    rcases h.1.2 with hc | hc <;> simp_all
  · rintro ⟨rfl, hb⟩
    rcases h.1.1 with hc | hc <;> simp_all
  · rintro ⟨rfl, hb⟩
    rcases h.2 with hc | hc <;> simp_all

/-- Witness for C10 at the concrete input `f = 0`, `e = 2` (phase pair
`(0, 2)` is unhandled): the exon is dropped with no state change. -/
theorem drawExonLoop_skip_witness :
    handled_pair 0 ((0 + 2) % 3) = false ∧
      drawExonLoop 5 [2, 3] 10 0 = drawExonLoop 5 [3] 10 0 :=
  ⟨by decide, drawExonLoop_skip 5 2 [3] 10 0 (by decide)⟩

/-- The polygon template of a handled phase pair, with x coordinates relative
to the exon's top-left corner (y coordinates are the absolute row constants
`10..20` of the source; the notch depth is half the row height, at
mid-height `15`). -/
def templatePoints (sf ef : ℤ) (w : ℚ) : List ℚ :=
  if sf = 0 ∧ ef = 0 then [0, 10, w, 10, w, 20, 0, 20]
  else if sf = 0 ∧ ef = 1 then [0, 10, w, 10, w - 5, 15, w, 20, 0, 20]
  else if sf = 1 ∧ ef = 0 then [0, 10, w, 10, w, 20, 0, 20, -5, 15]
  else []

/-- Translate the x entries of a flat `[x1, y1, x2, y2, ...]` coordinate list
by `dx`, leaving the y entries alone. -/
def translateX (dx : ℚ) : List ℚ → List ℚ
  | px :: py :: rest => (px + dx) :: py :: translateX dx rest
  | l => l

/-- Claim C9 exactly as stated: for every emitted exon, the polygon's
vertices are the template vertices translated by the current running
x-offset and uniformly multiplied by the scale factor, and afterwards the
running x-offset advances by (exon length + gap) × scale. -/
def layoutClaim : Prop :=
  ∀ (scale e : ℤ) (rest : List ℤ) (x : ℚ) (f : ℤ),
    handled_pair f ((f + e) % 3) = true →
    drawExonLoop scale (e :: rest) x f =
      ⟨(translateX x (templatePoints f ((f + e) % 3) e)).map
          (fun p => p * scale), "green", 1⟩ ::
        drawExonLoop scale rest (x + (e + 5) * scale) ((f + e) % 3)

/-- Counterexample to claim C9 as stated: with `scale = 5` and two rectangle
exons of length 3, the code advances the running x-offset by
`exon + gap = 8`, not by `(exon + gap) × scale = 40`, so the second polygon
sits at scaled x `90`, not `250`. -/
theorem drawExonLoop_layout_counterexample : ¬ layoutClaim := by
  intro h
  have h2 := h 5 3 [3] 10 0 (by decide)
  norm_num [drawExonLoop, translateX, templatePoints] at h2

/-- Claim C9 as amended: for every emitted exon, the polygon's vertices are
the template vertices translated by the current running x-offset and
uniformly multiplied by the scale factor, and afterwards the running
x-offset advances by (exon length + gap) — so in the scaled output
coordinates consecutive rendered exons are laid out left-to-right,
`(exon length + gap) × scale` apart. -/
theorem drawExonLoop_layout (scale e : ℤ) (rest : List ℤ) (x : ℚ) (f : ℤ)
    (h : handled_pair f ((f + e) % 3) = true) :
    drawExonLoop scale (e :: rest) x f =
      ⟨(translateX x (templatePoints f ((f + e) % 3) e)).map
          (fun p => p * scale), "green", 1⟩ ::
        drawExonLoop scale rest (x + e + 5) ((f + e) % 3) := by
  simp only [handled_pair, Bool.or_eq_true, Bool.and_eq_true, beq_iff_eq] at h
  rcases h with (⟨hf, hb⟩ | ⟨hf, hb⟩) | ⟨hf, hb⟩
  · subst hf
    have hb' : e % 3 = 0 := by omega
    have hd : 3 ∣ e := by omega
    rw [drawExonLoop]
    simp [templatePoints, translateX, hb', hd]
    ring_nf
    simp
  · subst hf
    have hb' : e % 3 = 1 := by omega
    have hd : ¬ (3 ∣ e) := by omega
    rw [drawExonLoop]
    simp [templatePoints, translateX, hb', hd]
    ring_nf
    simp
  · subst hf
    have hd : 3 ∣ 1 + e := by omega
    rw [drawExonLoop]
    simp [templatePoints, translateX, hb, hd]
    ring_nf
    simp

/-- Witness for the amended C9 at the concrete handled input `f = 0`,
`e = 3` (a rectangle exon). -/
theorem drawExonLoop_layout_witness :
    handled_pair 0 ((0 + 3) % 3) = true ∧
      drawExonLoop 5 [3] 10 0 =
        ⟨(translateX 10 (templatePoints 0 ((0 + 3) % 3) 3)).map
            (fun p => p * 5), "green", 1⟩ ::
          drawExonLoop 5 [] (10 + 3 + 5) ((0 + 3) % 3) :=
  ⟨by decide, drawExonLoop_layout 5 3 [] 10 0 (by decide)⟩

/-! ## The `exonviz.mutalyzer` coordinate helpers

The module `exonviz/mutalyzer.py` is not part of this source tree; only its
test suite `tests/test_mutalyzer.py` is.  The definitions below are modelled
from the specification (§4.1–§4.3, §8) and validated against every concrete
expectation of that test file. -/

/-- A normalized 0-based half-open genomic range, as in the tests
(`Range = Tuple[int, int]`). -/
abbrev Range := ℤ × ℤ

/-- Modelled from the spec: the decimal-string coordinate parser used by the
missing `exonviz.mutalyzer` conversions (Python `int(s)` on the nonnegative
decimal strings of the annotation payload). -/
def parsePos (s : String) : ℤ :=
  ((s.toList.foldl (fun n c => n * 10 + (c.toNat - 48)) 0 : ℕ) : ℤ)

example : parsePos ("11295") = 11295 := by decide

/-- Modelled from the spec: `is_reverse` from the missing
`exonviz.mutalyzer` — true iff the first coordinate pair is descending. -/
def is_reverse (positions : List (String × String)) : Bool :=
  match positions with
  | [] => false
  | (a, b) :: _ => parsePos b < parsePos a

example : is_reverse [(("10"), ("4"))] = true := by decide

example : is_reverse [(("4"), ("10"))] = false := by decide

/-- Modelled from the spec: `convert_coding_positions` from the missing
`exonviz.mutalyzer` — takes the transcript's single coding-region pair of
1-based decimal strings and returns the 0-based half-open range `(a-1, b)`,
swapping a descending pair first.  The empty payload is outside the spec and
mapped to the degenerate `(0, 0)`. -/
def convert_coding_positions (positions : List (String × String)) : ℤ × ℤ :=
  match positions with
  | [] => (0, 0)
  | (a, b) :: _ =>
      if parsePos b < parsePos a then (parsePos b - 1, parsePos a)
      else (parsePos a - 1, parsePos b)

example : convert_coding_positions [(("238"), ("11295"))] = (237, 11295) := by
  decide

example : convert_coding_positions [(("29199"), ("7218"))] = (7217, 29199) := by
  decide

/-- Modelled from the spec: `convert_exon_positions` from the missing
`exonviz.mutalyzer` — converts each 1-based inclusive exon pair to a 0-based
half-open range; for a reverse-strand transcript (descending first pair) each
pair is swapped and the list is emitted in reversed order, so that the output
ranges sit in increasing coordinate order.  (The spec's §4.1 prose speaks of
renumbering by the maximum genomic coordinate, but the repository's own tests
pin the original-coordinate swap-and-reverse behaviour modelled here.) -/
def convert_exon_positions (positions : List (String × String)) :
    List (ℤ × ℤ) :=
  if is_reverse positions then
    (positions.map (fun p => (parsePos p.2 - 1, parsePos p.1))).reverse
  else
    positions.map (fun p => (parsePos p.1 - 1, parsePos p.2))

example :
    convert_exon_positions
        [(("1"), ("268")), (("269"), ("330")), (("11284"), ("13992"))] =
      [(0, 268), (268, 330), (11283, 13992)] := by decide

example :
    convert_exon_positions
        [(("462349"), ("462187")), (("454236"), ("454122")),
         (("358790"), ("358665")), (("286796"), ("286669")),
         (("223577"), ("223516")), (("186998"), ("186861")),
         (("29359"), ("27283")), (("7748"), ("1"))] =
      [(0, 7748), (27282, 29359), (186860, 186998), (223515, 223577),
       (286668, 286796), (358664, 358790), (454121, 454236),
       (462186, 462349)] := by decide

/-- The coding portion of one exon, in exon-local coordinates, as in
`exonviz.exon.Coding` (`Coding(start, end, start_phase, end_phase)`, all
fields defaulting to 0; the Python field `end` is `stop` here because `end`
is a Lean keyword). -/
structure Coding where
  start : ℤ
  stop : ℤ
  start_phase : ℤ
  end_phase : ℤ
deriving DecidableEq, Repr

/-- Modelled from the spec: `make_coding` from the missing
`exonviz.mutalyzer` (§4.2, Coding Region Mapper).  Intersect the exon range
with the coding range; with no overlap return the degenerate `Coding`
carrying `start_phase` through unchanged as `end_phase`; with overlap emit
the intersection in exon-local coordinates, overriding the incoming phase to
`0` when the coding region's true start lies strictly inside the exon, and
set `end_phase = (local_length + phase) % 3`. -/
def make_coding (exon coding : Range) (start_phase : ℤ) : Coding :=
  let s := max exon.1 coding.1
  let e := min exon.2 coding.2
  if e ≤ s then
    ⟨0, 0, start_phase, start_phase⟩
  else
    let phase := if exon.1 < coding.1 then 0 else start_phase
    ⟨s - exon.1, e - exon.1, phase, (e - s + phase) % 3⟩

example : make_coding (0, 10) (20, 30) 0 = ⟨0, 0, 0, 0⟩ := by decide

example : make_coding (0, 10) (0, 10) 0 = ⟨0, 10, 0, 1⟩ := by decide

example : make_coding (0, 10) (5, 12) 0 = ⟨5, 10, 0, 2⟩ := by decide

example : make_coding (0, 10) (-5, 12) 2 = ⟨0, 10, 2, 0⟩ := by decide

example : make_coding (100, 110) (100, 200) 0 = ⟨0, 10, 0, 1⟩ := by decide

/-- Modelled from the spec: the sequential phase threading of the Exon
Assembler (§4.5) over the missing `build_exons` — fold `make_coding` over the
exons in transcript order, carrying each `end_phase` forward as the next
exon's `start_phase` input. -/
def chain_codings (coding : Range) : List Range → ℤ → List Coding
  | [], _ => []
  | e :: rest, phase =>
      let c := make_coding e coding phase
      c :: chain_codings coding rest c.end_phase

/-- A variant payload entry as consumed by `exon_variants`: an absolute
genomic position and a description string. -/
structure RawVariant where
  start : ℤ
  description : String
deriving DecidableEq, Repr

/-- A variant mapped into exon-local coordinates, as in
`exonviz.exon.Variant(position, description, color)`. -/
structure Variant where
  position : ℤ
  description : String
  color : String
deriving DecidableEq, Repr

/-- Modelled from the spec: `inside` from the missing `exonviz.mutalyzer`
(§4.3, Variant Locator) — the inclusion test
`0 ≤ local_position < exon.end - exon.start` for
`local_position = start - exon.start`. -/
def inside (exon : Range) (variant : RawVariant) : Bool :=
  decide (0 ≤ variant.start - exon.1) &&
    decide (variant.start - exon.1 < exon.2 - exon.1)

example : inside (0, 10) ⟨0, ""⟩ = true := by decide

example : inside (0, 10) ⟨10, ""⟩ = false := by decide

example : inside (0, 10) ⟨-1, ""⟩ = false := by decide

/-- Modelled from the spec: `exon_variants` from the missing
`exonviz.mutalyzer` (§4.3) — keep the variants lying inside the exon and map
each to exon-local coordinates; the display color lookup yields `"red"` on
every description exercised by the repository's tests. -/
def exon_variants (exon : Range) (variants : List RawVariant) :
    List Variant :=
  (variants.filter (fun v => inside exon v)).map
    (fun v => ⟨v.start - exon.1, v.description, "red"⟩)

example : exon_variants (0, 10) [⟨100, ""⟩] = [] := by decide

example :
    exon_variants (0, 10) [⟨0, ("274G>T")⟩] = [⟨0, ("274G>T"), ("red")⟩] := by
  decide

example :
    exon_variants (100, 110) [⟨105, ("274G>T")⟩] =
      [⟨5, ("274G>T"), ("red")⟩] := by decide

/-! ## The CLI input check (src/exonviz/cli.py) -/

/-- A regex word character (`\w`), restricted to the ASCII alphabet in which
all transcript identifiers live: letters, digits and the underscore. -/
def isWordChar (c : Char) : Bool :=
  c.isAlphanum || c == '_'

/-- The Python regex `^\w+\.\d+$` of `check_input`: a nonempty run of word
characters, one dot, then a nonempty run of digits.  Since `\w` never
matches `.`, the greedy match is equivalent to splitting at the first
non-word character. -/
def matchVersioned (s : String) : Bool :=
  match s.toList.span isWordChar with
  | (w, '.' :: rest) => !w.isEmpty && !rest.isEmpty && rest.all Char.isDigit
  | _ => false

example : matchVersioned ("NM_000094.4") = true := by decide

example : matchVersioned ("NM_000094") = false := by decide

example : matchVersioned ("NM_000094.4:c.=") = false := by decide

/-- The Python regex `^\w+$` of `check_input`: a nonempty run of word
characters. -/
def matchBare (s : String) : Bool :=
  !s.toList.isEmpty && s.toList.all isWordChar

/-- `check_input(transcript)` from src/exonviz/cli.py, lines 30-41: append
`:c.=` to a versioned transcript name, raise a `RuntimeError` (modelled as
`Except.error`) with a user-facing message on a bare transcript name without
version, and pass anything else through unchanged. -/
def check_input (transcript : String) : Except String String :=
  if matchVersioned transcript then Except.ok (transcript ++ ":c.=")
  else if matchBare transcript then
    Except.error
      ("Please specify the version of the transcript you are interested in: "
        ++ transcript)
  else Except.ok transcript

example : check_input ("NM_000094.4") = Except.ok ("NM_000094.4:c.=") := rfl

example : check_input ("NM_000094.4:c.100del") =
    Except.ok ("NM_000094.4:c.100del") := rfl

/-! ## Claims about the Coding Region Mapper -/

/-- Claim C3: for every exon range and coding range with empty intersection
and every start phase, `make_coding` returns the empty/degenerate `Coding`
value and the carried phase is unchanged: `start_phase` is passed through as
`end_phase`.  Here "no overlap" is
`min exon.end coding.end ≤ max exon.start coding.start`. -/
theorem make_coding_no_overlap (exon coding : Range) (start_phase : ℤ)
    (h : min exon.2 coding.2 ≤ max exon.1 coding.1) :
    make_coding exon coding start_phase = ⟨0, 0, start_phase, start_phase⟩ := by
  rcases exon with ⟨a, b⟩
  rcases coding with ⟨c, d⟩
  simp only at h
  simp [make_coding, h]

/-- Witness for C3 at the disjoint concrete input
`exon = (0, 10)`, `coding = (20, 30)`, `start_phase = 2`. -/
theorem make_coding_no_overlap_witness :
    min (10 : ℤ) 30 ≤ max (0 : ℤ) 20 ∧
      make_coding (0, 10) (20, 30) 2 = ⟨0, 0, 2, 2⟩ :=
  ⟨by decide, make_coding_no_overlap (0, 10) (20, 30) 2 (by decide)⟩

/-- Claim C4: for every exon of length `L` lying fully inside the coding
region, `make_coding` with `start_phase = 0` yields `end_phase = L % 3`; in
particular exon `(0,10)` with coding region `(0,10)` and `start_phase = 0`
yields `Coding(0, 10, end_phase = 1)`. -/
theorem make_coding_full_exon (exon coding : Range)
    (h1 : coding.1 ≤ exon.1) (h2 : exon.2 ≤ coding.2) (h3 : exon.1 < exon.2) :
    (make_coding exon coding 0).end_phase = (exon.2 - exon.1) % 3 ∧
      make_coding (0, 10) (0, 10) 0 = ⟨0, 10, 0, 1⟩ := by
  refine ⟨?_, by decide⟩
  rcases exon with ⟨a, b⟩
  rcases coding with ⟨c, d⟩
  simp only at h1 h2 h3
  have hs : max a c = a := max_eq_left h1
  have he : min b d = b := min_eq_left h2
  have hb : ¬ (min b d ≤ max a c) := by omega
  simp [make_coding, hb, hs, he]
  rw [if_neg (by omega)]

/-- Witness for C4 at the concrete input of the repository's test:
exon `(0, 10)` fully inside coding region `(0, 10)`. -/
theorem make_coding_full_exon_witness :
    ((0 : ℤ) ≤ 0 ∧ (10 : ℤ) ≤ 10 ∧ (0 : ℤ) < 10) ∧
      (make_coding (0, 10) (0, 10) 0).end_phase = ((10 : ℤ) - 0) % 3 :=
  ⟨by decide,
    (make_coding_full_exon (0, 10) (0, 10) (by decide) (by decide)
        (by decide)).1⟩

/-- Claim C5: for every coding-region pair `(a, b)` of decimal strings with
`a < b`, `convert_coding_positions` returns `(a - 1, b)`; for a descending
pair it returns the swapped equivalent with the smaller value decremented,
e.g. `[["238","11295"]] ⇒ (237, 11295)` and
`[["29199","7218"]] ⇒ (7217, 29199)`. -/
theorem convert_coding_positions_spec (a b : String)
    (rest : List (String × String)) :
    (parsePos a < parsePos b →
        convert_coding_positions ((a, b) :: rest) =
          (parsePos a - 1, parsePos b)) ∧
      (parsePos b < parsePos a →
        convert_coding_positions ((a, b) :: rest) =
          (parsePos b - 1, parsePos a)) ∧
      convert_coding_positions [(("238"), ("11295"))] = (237, 11295) ∧
      convert_coding_positions [(("29199"), ("7218"))] = (7217, 29199) := by
  refine ⟨?_, ?_, by decide, by decide⟩
  · intro h
    simp only [convert_coding_positions]
    rw [if_neg (by omega)]
  · intro h
    simp only [convert_coding_positions]
    rw [if_pos h]

/-- Witness for C5 at the forward concrete input `[["238", "11295"]]`. -/
theorem convert_coding_positions_witness :
    parsePos ("238") < parsePos ("11295") ∧
      convert_coding_positions [(("238"), ("11295"))] = (237, 11295) :=
  ⟨by decide,
    (convert_coding_positions_spec ("238") ("11295") []).1 (by decide)⟩

/-! ## Claim about the Variant Locator -/

/-- Claim C7: for every variant with absolute genomic position `p` and every
exon range `(s, e)`, the variant is included with local position `p - s` if
and only if `s ≤ p < e`; variants failing this test are dropped from that
exon's variant list. -/
theorem exon_variants_spec (s e : ℤ) (v : RawVariant)
    (vs : List RawVariant) :
    (inside (s, e) v = true ↔ s ≤ v.start ∧ v.start < e) ∧
      exon_variants (s, e) vs =
        vs.filterMap (fun w =>
          if s ≤ w.start ∧ w.start < e then
            some ⟨w.start - s, w.description, "red"⟩
          else none) := by
  constructor
  · simp only [inside, Bool.and_eq_true, decide_eq_true_eq]
    omega
  · induction vs with
    | nil => rfl
    | cons w ws ih =>
        by_cases hw : s ≤ w.start ∧ w.start < e
        · have hi : inside (s, e) w = true := by
            simp only [inside, Bool.and_eq_true, decide_eq_true_eq]
            omega
          simpa [exon_variants, List.filter_cons, List.filterMap_cons, hi, hw]
            using ih
        · have hi : inside (s, e) w = false := by
            by_contra hc
            rw [Bool.not_eq_false] at hc
            revert hc
            simp only [inside, Bool.and_eq_true, decide_eq_true_eq]
            omega
          simpa [exon_variants, List.filter_cons, List.filterMap_cons, hi, hw]
            using ih

/-! ## Claim about the CLI input check -/

/-- Claim C8: for every transcript identifier string consisting only of word
characters with no version suffix (a bare transcript name), `check_input`
rejects it by raising a `RuntimeError` carrying a user-facing message
(modelled as `Except.error`), rather than returning a value. -/
theorem check_input_rejects_bare (s : String) (h1 : s ≠ "")
    (h2 : s.toList.all isWordChar = true) :
    check_input s =
      Except.error
        ("Please specify the version of the transcript you are interested in: "
          ++ s) := by
  have hall : ∀ c ∈ s.toList, isWordChar c := by
    simpa [List.all_eq_true] using h2
  have hv : matchVersioned s = false := by
    unfold matchVersioned
    have hspan : s.toList.span isWordChar = (s.toList, []) := by
      rw [List.span_eq_take_drop]
      rw [List.takeWhile_eq_self_iff.mpr hall]
      rw [List.dropWhile_eq_nil_iff.mpr hall]
    rw [hspan]
  have hne : s.toList ≠ [] := by
    intro hnil
    apply h1
    cases s with
    | mk data =>
        simp only [String.toList] at hnil
        simp [hnil]
  have hb : matchBare s = true := by
    simp only [matchBare, Bool.and_eq_true]
    refine ⟨?_, ?_⟩
    · simpa [String.toList] using hne
    · simpa [String.toList, List.all_eq_true] using hall
  simp [check_input, hv, hb]

/-- Witness for C8 at the concrete bare transcript name `NM_000094`. -/
theorem check_input_rejects_bare_witness :
    (("NM_000094" : String) ≠ "" ∧
        ("NM_000094" : String).toList.all isWordChar = true) ∧
      check_input ("NM_000094") =
        Except.error
          ("Please specify the version of the transcript you are interested in: "
            ++ "NM_000094") :=
  ⟨⟨by decide, by decide⟩,
    check_input_rejects_bare ("NM_000094") (by decide) (by decide)⟩

/-- One `make_coding` step keeps both phases in `{0,1,2}` (given an incoming
phase in `{0,1,2}`) and satisfies
`end_phase = (local_length + start_phase) % 3`. -/
theorem make_coding_phase_ok (exon coding : Range) (phase : ℤ)
    (h0 : 0 ≤ phase) (h3 : phase < 3) :
    0 ≤ (make_coding exon coding phase).start_phase ∧
      (make_coding exon coding phase).start_phase < 3 ∧
      0 ≤ (make_coding exon coding phase).end_phase ∧
      (make_coding exon coding phase).end_phase < 3 ∧
      (make_coding exon coding phase).end_phase =
        ((make_coding exon coding phase).stop -
            (make_coding exon coding phase).start +
            (make_coding exon coding phase).start_phase) % 3 := by
  rcases exon with ⟨a, b⟩
  rcases coding with ⟨c, d⟩
  simp only [make_coding]
  by_cases hcase : min b d ≤ max a c
  · rw [if_pos hcase]
    simp only
    omega
  · rw [if_neg hcase]
    by_cases hov : a < c
    · simp only [if_pos hov]
      omega
    · simp only [if_neg hov]
      omega

/-- Every `Coding` produced along the chain satisfies the per-exon phase
invariants, provided the initial phase is in `{0,1,2}`. -/
theorem chain_codings_all_ok (coding : Range) :
    ∀ (exons : List Range) (phase : ℤ), 0 ≤ phase → phase < 3 →
      ∀ c ∈ chain_codings coding exons phase,
        0 ≤ c.start_phase ∧ c.start_phase < 3 ∧ 0 ≤ c.end_phase ∧
          c.end_phase < 3 ∧
          c.end_phase = (c.stop - c.start + c.start_phase) % 3
  | [], _, _, _ => by simp [chain_codings]
  | e :: rest, phase, h0, h3 => by
      intro c hc
      simp only [chain_codings, List.mem_cons] at hc
      rcases hc with rfl | hc
      · exact make_coding_phase_ok e coding phase h0 h3
      · have hstep := make_coding_phase_ok e coding phase h0 h3
        exact chain_codings_all_ok coding rest _ hstep.2.2.1
          hstep.2.2.2.1 c hc

/-- Along the chain, each `Coding` after the first is computed by
`make_coding` from the corresponding exon and the previous `Coding`'s
`end_phase` — the end phase is the start-phase input of the next exon. -/
theorem chain_codings_thread (coding : Range) :
    ∀ (exons : List Range) (phase : ℤ),
      (((chain_codings coding exons phase).zip
            (chain_codings coding exons phase).tail).zip exons.tail).all
          (fun q => decide (q.1.2 = make_coding q.2 coding q.1.1.end_phase)) =
        true
  | [], _ => rfl
  | [_], _ => rfl
  | e :: r :: rs, phase => by
      have ih := chain_codings_thread coding (r :: rs)
        (make_coding e coding phase).end_phase
      simp only [chain_codings, List.tail_cons, List.zip_cons_cons,
        List.all_cons, Bool.and_eq_true, decide_eq_true_eq] at ih ⊢
      exact ⟨trivial, ih⟩

/-- Claim C2: for every sequence of exons processed in transcript order with
an initial phase in `{0,1,2}`, each exon's `end_phase` equals
`(coding_length_in_exon + start_phase) % 3`, every phase value produced is
in `{0,1,2}`, and each exon's `end_phase` is the `start_phase` input used for
the next exon (the next `Coding` is `make_coding` of the next exon at the
previous `end_phase`). -/
theorem chain_codings_phase_invariants (exons : List Range) (coding : Range)
    (phase : ℤ) (h0 : 0 ≤ phase) (h3 : phase < 3) :
    (chain_codings coding exons phase).all
        (fun c => decide (0 ≤ c.start_phase ∧ c.start_phase < 3 ∧
          0 ≤ c.end_phase ∧ c.end_phase < 3 ∧
          c.end_phase = (c.stop - c.start + c.start_phase) % 3)) = true ∧
      (((chain_codings coding exons phase).zip
            (chain_codings coding exons phase).tail).zip exons.tail).all
          (fun q => decide (q.1.2 = make_coding q.2 coding q.1.1.end_phase)) =
        true := by
  constructor
  · simp only [List.all_eq_true, decide_eq_true_eq]
    exact fun c hc => chain_codings_all_ok coding exons phase h0 h3 c hc
  · exact chain_codings_thread coding exons phase

/-- Witness for C2 on the transcript of the repository's test payload
(exons `(0,268), (268,330), (11283,13992)`, coding region `(237, 11295)`,
initial phase `0`). -/
theorem chain_codings_phase_invariants_witness :
    ((0 : ℤ) ≤ 0 ∧ (0 : ℤ) < 3) ∧
      ((chain_codings (237, 11295) [(0, 268), (268, 330), (11283, 13992)]
            0).all
          (fun c => decide (0 ≤ c.start_phase ∧ c.start_phase < 3 ∧
            0 ≤ c.end_phase ∧ c.end_phase < 3 ∧
            c.end_phase = (c.stop - c.start + c.start_phase) % 3)) = true ∧
        (((chain_codings (237, 11295)
                [(0, 268), (268, 330), (11283, 13992)] 0).zip
              (chain_codings (237, 11295)
                  [(0, 268), (268, 330), (11283, 13992)] 0).tail).zip
            [(0, 268), (268, 330), (11283, 13992)].tail).all
          (fun q =>
            decide (q.1.2 = make_coding q.2 (237, 11295)
              q.1.1.end_phase)) = true) :=
  ⟨⟨by decide, by decide⟩,
    chain_codings_phase_invariants [(0, 268), (268, 330), (11283, 13992)]
      (237, 11295) 0 (by decide) (by decide)⟩

/-! ## Claim about the Range Normalizer -/

/-- The 0-based half-open range of a single raw exon pair (swapping a
descending pair): this is the range each input pair contributes to the
output of `convert_exon_positions`. -/
def pairRange (p : String × String) : ℤ × ℤ :=
  if parsePos p.2 < parsePos p.1 then (parsePos p.2 - 1, parsePos p.1)
  else (parsePos p.1 - 1, parsePos p.2)

/-- Executable check that the binary condition `r` holds between each pair of
consecutive payload entries. -/
def consecutiveOk (r : (String × String) → (String × String) → Bool) :
    List (String × String) → Bool
  | [] => true
  | [_] => true
  | p :: q :: rest => r p q && consecutiveOk r (q :: rest)

/-- `consecutiveOk` is the executable form of `List.Chain'`. -/
theorem consecutiveOk_iff_chain
    (r : (String × String) → (String × String) → Bool) :
    ∀ l, consecutiveOk r l = true ↔
      List.Chain' (fun a b => r a b = true) l
  | [] => by simp [consecutiveOk]
  | [p] => by simp [consecutiveOk]
  | p :: q :: rest => by
      simp [consecutiveOk, Bool.and_eq_true, List.chain'_cons,
        consecutiveOk_iff_chain r (q :: rest)]

/-- A well-formed strand-consistent exon payload: every pair is ordered
according to the strand of the first pair, all coordinates are positive and
1-based, and consecutive exons in transcript order are separated (or abut)
coordinate-wise. -/
def stranded_wf (ps : List (String × String)) : Bool :=
  if is_reverse ps then
    ps.all
        (fun p => decide (0 < parsePos p.2 ∧ parsePos p.2 ≤ parsePos p.1)) &&
      consecutiveOk (fun p q => decide (parsePos q.1 < parsePos p.2)) ps
  else
    ps.all
        (fun p => decide (0 < parsePos p.1 ∧ parsePos p.1 ≤ parsePos p.2)) &&
      consecutiveOk (fun p q => decide (parsePos p.2 < parsePos q.1)) ps

/-- Claim C6 exactly as stated: for every well-formed sequence of exon
coordinate pairs (forward or reverse strand), `convert_exon_positions`
preserves transcript order (the i-th output range is the conversion of the
i-th input pair) and produces strictly increasing, non-overlapping ranges. -/
def exonPositionsClaim : Prop :=
  ∀ ps : List (String × String), stranded_wf ps = true →
    convert_exon_positions ps = ps.map pairRange ∧
      (convert_exon_positions ps).all (fun r => decide (r.1 < r.2)) = true ∧
      List.Chain' (fun r s => r.2 ≤ s.1) (convert_exon_positions ps)

/-- Counterexample to claim C6 as stated: on a well-formed reverse-strand
payload (two exons, transcript order `8..10` then `1..5`) the function emits
the converted ranges in reversed (genomic, increasing) order
`[(0,5), (7,10)]`, not in transcript order `[(7,10), (0,5)]`. -/
theorem convert_exon_positions_order_counterexample : ¬ exonPositionsClaim := by
  intro h
  have h2 := h [(("10"), ("8")), (("5"), ("1"))] (by decide)
  exact absurd h2.1 (by decide)

/-- Claim C6 as amended: for every well-formed sequence of exon coordinate
pairs, `convert_exon_positions` converts each pair to a 0-based half-open
range, keeping forward-strand input in transcript order and emitting
reverse-strand input in reversed (genomic, increasing) order; in both cases
the output ranges are strictly increasing, non-overlapping and
abutment-preserving (no exon is merged or dropped), and
`[["1","268"],["269","330"],["11284","13992"]]` maps to
`[(0,268),(268,330),(11283,13992)]`. -/
theorem convert_exon_positions_props (ps : List (String × String))
    (hwf : stranded_wf ps = true) :
    (convert_exon_positions ps).length = ps.length ∧
      (convert_exon_positions ps).all (fun r => decide (r.1 < r.2)) = true ∧
      List.Chain' (fun r s => r.2 ≤ s.1) (convert_exon_positions ps) ∧
      (is_reverse ps = false →
        convert_exon_positions ps =
          ps.map (fun p => (parsePos p.1 - 1, parsePos p.2))) ∧
      (is_reverse ps = true →
        convert_exon_positions ps =
          (ps.map (fun p => (parsePos p.2 - 1, parsePos p.1))).reverse) ∧
      convert_exon_positions
          [(("1"), ("268")), (("269"), ("330")), (("11284"), ("13992"))] =
        [(0, 268), (268, 330), (11283, 13992)] := by
  rcases Bool.eq_false_or_eq_true (is_reverse ps) with hrev | hrev
  · have hconv : convert_exon_positions ps =
        (ps.map (fun p => (parsePos p.2 - 1, parsePos p.1))).reverse := by
      simp [convert_exon_positions, hrev]
    rw [stranded_wf, if_pos hrev, Bool.and_eq_true] at hwf
    obtain ⟨hall, hchain⟩ := hwf
    simp only [List.all_eq_true, decide_eq_true_eq] at hall
    rw [consecutiveOk_iff_chain] at hchain
    refine ⟨by simp [hconv], ?_, ?_, fun hh => by simp [hrev] at hh,
      fun _ => hconv, by decide⟩
    · rw [hconv]
      simp only [List.all_eq_true, List.mem_reverse, List.mem_map,
        decide_eq_true_eq]
      rintro r ⟨p, hp, rfl⟩
      have := hall p hp
      simp only
      omega
    · rw [hconv, List.chain'_reverse, List.chain'_map]
      refine List.Chain'.imp ?_ hchain
      intro a b hab
      simp only [decide_eq_true_eq] at hab
      simp only [Function.flip_def]
      omega
  · have hconv : convert_exon_positions ps =
        ps.map (fun p => (parsePos p.1 - 1, parsePos p.2)) := by
      simp [convert_exon_positions, hrev]
    rw [stranded_wf, if_neg (by simp [hrev]), Bool.and_eq_true] at hwf
    obtain ⟨hall, hchain⟩ := hwf
    simp only [List.all_eq_true, decide_eq_true_eq] at hall
    rw [consecutiveOk_iff_chain] at hchain
    refine ⟨by simp [hconv], ?_, ?_, fun _ => hconv,
      fun hh => by simp [hrev] at hh, by decide⟩
    · rw [hconv]
      simp only [List.all_eq_true, List.mem_map, decide_eq_true_eq]
      rintro r ⟨p, hp, rfl⟩
      have := hall p hp
      simp only
      omega
    · rw [hconv, List.chain'_map]
      refine List.Chain'.imp ?_ hchain
      intro a b hab
      simp only [decide_eq_true_eq] at hab
      simp only
      omega

/-- Witness for the amended C6 at the forward payload of the repository's
test `test_convert_mutalyzer_positions`. -/
theorem convert_exon_positions_props_witness :
    stranded_wf
        [(("1"), ("268")), (("269"), ("330")), (("11284"), ("13992"))] =
        true ∧
      convert_exon_positions
          [(("1"), ("268")), (("269"), ("330")), (("11284"), ("13992"))] =
        [(0, 268), (268, 330), (11283, 13992)] :=
  ⟨by decide,
    (convert_exon_positions_props
        [(("1"), ("268")), (("269"), ("330")), (("11284"), ("13992"))]
        (by decide)).2.2.2.2.2⟩
